import Mathlib

/-!
# Verification of `subtitle_maker.py`

A shallow embedding of the subtitle-generation pipeline in
`src/subtitle_maker.py`, together with proofs about its components:

* `remove_duplicate_segment` — the segment realigner;
* `dict_to_srt` / `estimate_end_time` / `format_time` — the SRT encoder,
  end-time estimator and timestamp formatter;
* `plan_duplication` — the short-audio duplication window computation
  from `process_video`;
* `main_run` / `main_loop` — the per-file exception-isolation structure
  of the orchestrator.

Python floats are modelled as rationals (`ℚ`); Python's floor-based
`divmod`/`%` on nonnegative floats is `pymod` below, and `int()` applied
to a nonnegative value is `Int.floor`.
-/

/-- A transcription segment as produced by the engine and consumed by
`remove_duplicate_segment`: dictionary keys `start`, `end`, `text`. -/
structure Segment where
  start : ℚ
  «end» : ℚ
  text : String
deriving DecidableEq

/-- Embedding of `remove_duplicate_segment(sentences, duplicate_duration)`
(src/subtitle_maker.py lines 14-40).  The Python loop appends to
`adjusted_segments`; here it is structural recursion on the list. -/
def remove_duplicate_segment (sentences : List Segment) (duplicate_duration : ℚ) :
    List Segment :=
  match sentences with
  | [] => []
  | segment :: rest =>
    if segment.«end» ≤ duplicate_duration then
      -- skip segments that end within the duplicate duration
      remove_duplicate_segment rest duplicate_duration
    else if segment.start < duplicate_duration then
      -- straddling segment: start := 0, end -= duplicate_duration
      let adjusted : Segment :=
        { segment with start := 0, «end» := segment.«end» - duplicate_duration }
      if adjusted.start < adjusted.«end» then
        adjusted :: remove_duplicate_segment rest duplicate_duration
      else
        remove_duplicate_segment rest duplicate_duration
    else
      -- segment fully after the duplicate window: shift both bounds
      { segment with
          start := segment.start - duplicate_duration,
          «end» := segment.«end» - duplicate_duration } ::
        remove_duplicate_segment rest duplicate_duration

/-- The three-case transform of the spec (§4.2), written from the spec's
words, one segment at a time: drop when fully inside the window, clamp a
straddling segment (kept only when the new end is positive), shift a
segment that starts at or after the window. -/
def realign_case_spec (duplicate_duration : ℚ) (segment : Segment) : Option Segment :=
  if segment.«end» ≤ duplicate_duration then
    none
  else if segment.start < duplicate_duration then
    if 0 < segment.«end» - duplicate_duration then
      some { segment with start := 0, «end» := segment.«end» - duplicate_duration }
    else
      none
  else
    some { segment with
             start := segment.start - duplicate_duration,
             «end» := segment.«end» - duplicate_duration }

/-- The realignment step as the pipeline applies it
(src/subtitle_maker.py lines 190-196): `remove_duplicate_segment` is
invoked only when duplication was performed with a positive duplicate
duration; otherwise the sentences pass through unchanged. -/
def realign_step (duplication_performed : Bool) (duplicate_duration : ℚ)
    (sentences : List Segment) : List Segment :=
  if duplication_performed = true ∧ 0 < duplicate_duration then
    remove_duplicate_segment sentences duplicate_duration
  else
    sentences

example :
    remove_duplicate_segment
      [⟨1, 3, "a"⟩, ⟨3, 7, "b"⟩, ⟨6, 9, "c"⟩] 5 = [⟨0, 2, "b"⟩, ⟨1, 4, "c"⟩] := by
  norm_num [remove_duplicate_segment]

/-- C1: for every `duplicate_duration > 0` and every input list processed in
order, `remove_duplicate_segment` performs exactly the three-case per-segment
transform of the spec: segments with `end ≤ d` are dropped, straddling
segments (`start < d < end`) become `{start := 0, end := end - d}` and are
kept exactly when the new end is positive, and segments with `start ≥ d` are
shifted down by `d` and always kept; `filterMap` preserves the relative order
of kept segments and introduces nothing else. -/
theorem remove_duplicate_segment_three_cases (d : ℚ) (hd : 0 < d)
    (sentences : List Segment) :
    remove_duplicate_segment sentences d = sentences.filterMap (realign_case_spec d) := by
  induction sentences with
  | nil => rfl
  | cons s rest ih =>
    simp only [remove_duplicate_segment, realign_case_spec, List.filterMap_cons]
    by_cases h1 : s.«end» ≤ d
    · simp [h1, ih]
    · by_cases h2 : s.start < d
      · by_cases h3 : (0 : ℚ) < s.«end» - d
        · simp [h1, h2, h3, ih]
        · simp [h1, h2, h3, ih]
      · simp [h1, h2, ih]

/-- Witness for C1: the three-case characterisation evaluated at
`duplicate_duration = 5` on a concrete list exercising all three cases. -/
theorem remove_duplicate_segment_three_cases_witness :
    (0 : ℚ) < 5 ∧
      remove_duplicate_segment [⟨1, 3, "a"⟩, ⟨3, 7, "b"⟩, ⟨6, 9, "c"⟩] 5 =
        List.filterMap (realign_case_spec 5) [⟨1, 3, "a"⟩, ⟨3, 7, "b"⟩, ⟨6, 9, "c"⟩] :=
  ⟨by norm_num,
    remove_duplicate_segment_three_cases 5 (by norm_num)
      [⟨1, 3, "a"⟩, ⟨3, 7, "b"⟩, ⟨6, 9, "c"⟩]⟩

/-- C3: at `duplicate_duration = 0` the realignment step of the pipeline
(`process_video` lines 190-196) is the identity: the guard
`duplication_performed and duplicate_duration > 0` fails, so the sentences
are returned unchanged — same order, same values, nothing dropped. -/
theorem realign_step_identity_at_zero (duplication_performed : Bool)
    (sentences : List Segment) :
    realign_step duplication_performed 0 sentences = sentences := by
  simp [realign_step]

/-- C10: for every positive `duplicate_duration`, every segment that
`remove_duplicate_segment` outputs has `start ≥ 0` and `end > 0`, on any
input whatsoever; and when every input segment satisfies `start < end`, so
does every output segment. -/
theorem remove_duplicate_segment_time_invariant (d : ℚ) (hd : 0 < d)
    (sentences : List Segment) :
    ∀ s ∈ remove_duplicate_segment sentences d,
      0 ≤ s.start ∧ 0 < s.«end» ∧
        ((∀ t ∈ sentences, t.start < t.«end») → s.start < s.«end») := by
  induction sentences with
  | nil => intro s hs; simp [remove_duplicate_segment] at hs
  | cons seg rest ih =>
    intro s hs
    simp only [remove_duplicate_segment] at hs
    split_ifs at hs with h1 h2 h3
    · exact ⟨(ih s hs).1, (ih s hs).2.1,
        fun h => (ih s hs).2.2 fun t ht => h t (List.mem_cons_of_mem _ ht)⟩
    · rcases List.mem_cons.mp hs with rfl | hmem
      · refine ⟨le_refl 0, ?_, fun _ => h3⟩
        simpa using h3
      · exact ⟨(ih s hmem).1, (ih s hmem).2.1,
          fun h => (ih s hmem).2.2 fun t ht => h t (List.mem_cons_of_mem _ ht)⟩
    · exact ⟨(ih s hs).1, (ih s hs).2.1,
        fun h => (ih s hs).2.2 fun t ht => h t (List.mem_cons_of_mem _ ht)⟩
    · rcases List.mem_cons.mp hs with rfl | hmem
      · refine ⟨?_, ?_, fun h => ?_⟩
        · simp only [not_lt] at h2
          simpa using sub_nonneg.mpr h2
        · simp only [not_le] at h1
          simpa using sub_pos.mpr h1
        · have hseg := h seg (List.mem_cons_self _ _)
          simpa using sub_lt_sub_right hseg d
      · exact ⟨(ih s hmem).1, (ih s hmem).2.1,
          fun h => (ih s hmem).2.2 fun t ht => h t (List.mem_cons_of_mem _ ht)⟩

/-- Witness for C10: the invariant instantiated at `duplicate_duration = 5`
on a concrete list containing a degenerate segment. -/
theorem remove_duplicate_segment_time_invariant_witness :
    (0 : ℚ) < 5 ∧
      ∀ s ∈ remove_duplicate_segment [⟨-2, 6, "a"⟩, ⟨6, 9, "b"⟩] 5,
        0 ≤ s.start ∧ 0 < s.«end» ∧
          ((∀ t ∈ [(⟨-2, 6, "a"⟩ : Segment), ⟨6, 9, "b"⟩], t.start < t.«end») →
            s.start < s.«end») :=
  ⟨by norm_num,
    remove_duplicate_segment_time_invariant 5 (by norm_num) [⟨-2, 6, "a"⟩, ⟨6, 9, "b"⟩]⟩

/-- Python's float modulo `a % b`: floor-based remainder, as used by
`divmod` in `format_time`. -/
def pymod (a b : ℚ) : ℚ := a - b * ⌊a / b⌋

/-- Python's `"{:02}".format(n)`: decimal representation left-padded with
zeros to a minimum width of 2. -/
def pad2 (n : ℕ) : String :=
  if n < 10 then "0" ++ Nat.repr n else Nat.repr n

/-- Python's `"{:03}".format(n)`: decimal representation left-padded with
zeros to a minimum width of 3. -/
def pad3 (n : ℕ) : String :=
  if n < 10 then "00" ++ Nat.repr n
  else if n < 100 then "0" ++ Nat.repr n
  else Nat.repr n

/-- The `seconds` local of `format_time` (line 68): `divmod` remainder of the
clamped timestamp by 3600, then by 60. -/
def ft_seconds (timestamp : ℚ) : ℚ := pymod (pymod (max 0 timestamp) 3600) 60

/-- The `milliseconds` local of `format_time` (line 69):
`int((seconds % 1) * 1000)`.  The argument is nonnegative, so Python's
truncating `int()` is the floor. -/
def ft_milliseconds (timestamp : ℚ) : ℤ := ⌊pymod (ft_seconds timestamp) 1 * 1000⌋

/-- Embedding of `format_time(timestamp)` (src/subtitle_maker.py lines
63-70).  `divmod` quotients are floors of the division; `int()` on the
nonnegative quotients and on `seconds` is the floor. -/
def format_time (timestamp : ℚ) : String :=
  let ts := max 0 timestamp
  pad2 (⌊ts / 3600⌋).toNat ++ ":" ++
    pad2 (⌊pymod ts 3600 / 60⌋).toNat ++ ":" ++
    pad2 (⌊ft_seconds timestamp⌋).toNat ++ "," ++
    pad3 (ft_milliseconds timestamp).toNat

example : format_time 0 = "00:00:00,000" := by
  norm_num [format_time, ft_seconds, ft_milliseconds, pymod, pad2, pad3]
  rfl

example : format_time (7323 / 2) = "01:01:01,500" := by
  norm_num [format_time, ft_seconds, ft_milliseconds, pymod, pad2, pad3]
  rfl

theorem pymod_nonneg (a b : ℚ) (hb : 0 < b) : 0 ≤ pymod a b := by
  have h1 : ((⌊a / b⌋ : ℚ)) ≤ a / b := Int.floor_le _
  have h2 : pymod a b = (a / b - ⌊a / b⌋) * b := by
    unfold pymod
    field_simp
  rw [h2]
  exact mul_nonneg (sub_nonneg.mpr h1) hb.le

theorem pymod_lt (a b : ℚ) (hb : 0 < b) : pymod a b < b := by
  have h1 : a / b < ⌊a / b⌋ + 1 := Int.lt_floor_add_one _
  have h2 : pymod a b = (a / b - ⌊a / b⌋) * b := by
    unfold pymod
    field_simp
  rw [h2]
  calc (a / b - ⌊a / b⌋) * b < 1 * b :=
        mul_lt_mul_of_pos_right (by linarith) hb
    _ = b := one_mul b

/-- Checks the shape `\d\d:\d\d:\d\d,\d\d\d` on the character list of a
string. -/
def digitsPattern : List Char → Bool
  | [h1, h2, c1, m1, m2, c2, s1, s2, c3, x1, x2, x3] =>
    h1.isDigit && h2.isDigit && (c1 == ':') && m1.isDigit && m2.isDigit &&
      (c2 == ':') && s1.isDigit && s2.isDigit && (c3 == ',') &&
      x1.isDigit && x2.isDigit && x3.isDigit
  | _ => false

/-- The regular expression of spec §8 property 1, as a decidable check:
the string matches the anchored pattern of two digit pairs, a colon-pair
separator, and a three-digit millisecond field. -/
def matchesTimePattern (s : String) : Bool := digitsPattern s.data

theorem pad2_shape : ∀ n : ℕ, n < 100 →
    (pad2 n).data.length = 2 ∧ (pad2 n).data.all Char.isDigit = true := by
  decide

set_option maxRecDepth 10000 in
theorem pad3_shape : ∀ n : ℕ, n < 1000 →
    (pad3 n).data.length = 3 ∧ (pad3 n).data.all Char.isDigit = true := by
  decide

theorem pattern_of_parts (h m s ms : ℕ) (hh : h < 100) (hm : m < 60)
    (hs : s < 60) (hms : ms < 1000) :
    matchesTimePattern
      (pad2 h ++ ":" ++ pad2 m ++ ":" ++ pad2 s ++ "," ++ pad3 ms) = true := by
  obtain ⟨hl1, hd1⟩ := pad2_shape h hh
  obtain ⟨hl2, hd2⟩ := pad2_shape m (by omega)
  obtain ⟨hl3, hd3⟩ := pad2_shape s (by omega)
  obtain ⟨hl4, hd4⟩ := pad3_shape ms hms
  obtain ⟨a1, a2, ha⟩ := List.length_eq_two.mp hl1
  obtain ⟨b1, b2, hb⟩ := List.length_eq_two.mp hl2
  obtain ⟨c1, c2, hc⟩ := List.length_eq_two.mp hl3
  obtain ⟨e1, e2, e3, he⟩ := List.length_eq_three.mp hl4
  rw [ha] at hd1
  rw [hb] at hd2
  rw [hc] at hd3
  rw [he] at hd4
  simp only [List.all_cons, List.all_nil, Bool.and_true, Bool.and_eq_true] at hd1 hd2 hd3 hd4
  simp only [matchesTimePattern, String.data_append, ha, hb, hc, he]
  simp [digitsPattern, hd1.1, hd1.2, hd2.1, hd2.2, hd3.1, hd3.2,
    hd4.1, hd4.2.1, hd4.2.2]

theorem ft_seconds_bounds (t : ℚ) : 0 ≤ ft_seconds t ∧ ft_seconds t < 60 :=
  ⟨pymod_nonneg _ _ (by norm_num), pymod_lt _ _ (by norm_num)⟩

theorem ft_milliseconds_bounds (t : ℚ) :
    0 ≤ ft_milliseconds t ∧ ft_milliseconds t < 1000 := by
  have h0 : 0 ≤ pymod (ft_seconds t) 1 := pymod_nonneg _ _ one_pos
  have h1 : pymod (ft_seconds t) 1 < 1 := pymod_lt _ _ one_pos
  unfold ft_milliseconds
  constructor
  · exact Int.floor_nonneg.mpr (by nlinarith)
  · rw [Int.floor_lt]
    push_cast
    nlinarith

/-- C7-counterexample: at `t = 360000` (one hundred hours) the hour field
needs three digits, so the formatted string does not match the fixed-width
pattern `\d\d:\d\d:\d\d,\d\d\d` claimed for every `t ≥ 0`. -/
theorem format_time_pattern_fails_at_360000 :
    matchesTimePattern (format_time 360000) = false := by
  norm_num [format_time, ft_seconds, ft_milliseconds, pymod, pad2, pad3]
  rfl

/-- C7 (amended): the fixed-width pattern `\d\d:\d\d:\d\d,\d\d\d` holds for
all `0 ≤ t < 360000` — that is, whenever the hour count fits in two digits
(for `t ≥ 360000` the hour field widens, as the counterexample shows) —
and `format_time 0 = "00:00:00,000"`, `format_time 3661.5 = "01:01:01,500"`,
and every negative timestamp is clamped: `format_time t = format_time 0`. -/
theorem format_time_shape :
    (∀ t : ℚ, 0 ≤ t → t < 360000 → matchesTimePattern (format_time t) = true) ∧
      format_time 0 = "00:00:00,000" ∧
      format_time (7323 / 2) = "01:01:01,500" ∧
      ∀ t : ℚ, t < 0 → format_time t = format_time 0 := by
  refine ⟨?_, ?_, ?_, ?_⟩
  · intro t ht htlt
    have hts : max 0 t = t := max_eq_right ht
    have hH : (⌊max 0 t / 3600⌋).toNat < 100 := by
      have : max 0 t / 3600 < ((100 : ℤ) : ℚ) := by
        rw [hts]
        push_cast
        rw [div_lt_iff₀ (by norm_num : (0:ℚ) < 3600)]
        linarith
      have := Int.floor_lt.mpr this
      omega
    have hM : (⌊pymod (max 0 t) 3600 / 60⌋).toNat < 60 := by
      have hlt : pymod (max 0 t) 3600 < 3600 := pymod_lt _ _ (by norm_num)
      have : pymod (max 0 t) 3600 / 60 < ((60 : ℤ) : ℚ) := by
        push_cast
        rw [div_lt_iff₀ (by norm_num : (0:ℚ) < 60)]
        linarith
      have := Int.floor_lt.mpr this
      omega
    have hS : (⌊ft_seconds t⌋).toNat < 60 := by
      have hlt : ft_seconds t < 60 := (ft_seconds_bounds t).2
      have : ft_seconds t < ((60 : ℤ) : ℚ) := by push_cast; linarith
      have := Int.floor_lt.mpr this
      omega
    have hMS : (ft_milliseconds t).toNat < 1000 := by
      have := ft_milliseconds_bounds t
      omega
    simpa only [format_time] using pattern_of_parts _ _ _ _ hH hM hS hMS
  · norm_num [format_time, ft_seconds, ft_milliseconds, pymod, pad2, pad3]
    rfl
  · norm_num [format_time, ft_seconds, ft_milliseconds, pymod, pad2, pad3]
    rfl
  · intro t ht
    have h1 : max 0 t = 0 := max_eq_left ht.le
    have h2 : max 0 (0 : ℚ) = 0 := max_eq_left le_rfl
    simp only [format_time, ft_seconds, ft_milliseconds, h1, h2]

/-- Witness for C7 (amended): the pattern holds at the concrete timestamp
`t = 3661.5`. -/
theorem format_time_shape_witness :
    matchesTimePattern (format_time (7323 / 2)) = true :=
  format_time_shape.1 (7323 / 2) (by norm_num) (by norm_num)

/-- C6-counterexample: at `t = 0.0015` the fractional part of the seconds
value is `0.0015`, so `round(0.0015 * 1000) = round 1.5 = 2`, but the code
computes `int(1.5) = 1`: the millisecond field truncates instead of
rounding. -/
theorem ft_milliseconds_not_round :
    ft_milliseconds (3 / 2000) = 1 ∧
      round ((ft_seconds (3 / 2000) - ⌊ft_seconds (3 / 2000)⌋) * 1000) = 2 := by
  constructor
  · norm_num [ft_milliseconds, ft_seconds, pymod]
  · norm_num [ft_seconds, pymod, round_eq]

/-- C6 (amended): for every `t ≥ 0` the millisecond value of `format_time`
equals `⌊fractional_seconds * 1000⌋` — the floor (Python `int()`
truncation), not `round` — where `fractional_seconds` is the fractional
part of the seconds value obtained from the hours/minutes/seconds
decomposition; and the formatted string is assembled from the truncated
seconds and that millisecond value separately, with no carry into the
seconds field. -/
theorem format_time_milliseconds_floor : ∀ t : ℚ, 0 ≤ t →
    ft_milliseconds t = ⌊(ft_seconds t - ⌊ft_seconds t⌋) * 1000⌋ ∧
      format_time t =
        pad2 (⌊max 0 t / 3600⌋).toNat ++ ":" ++
          pad2 (⌊pymod (max 0 t) 3600 / 60⌋).toNat ++ ":" ++
          pad2 (⌊ft_seconds t⌋).toNat ++ "," ++ pad3 (ft_milliseconds t).toNat := by
  intro t ht
  constructor
  · have h : pymod (ft_seconds t) 1 = ft_seconds t - ⌊ft_seconds t⌋ := by
      unfold pymod
      rw [div_one]
      ring
    rw [ft_milliseconds, h]
  · rfl

/-- Witness for C6 (amended): the floor characterisation evaluated at
`t = 0.0015`, where the millisecond field is `001`, not the rounded `002`. -/
theorem format_time_milliseconds_floor_witness :
    ft_milliseconds (3 / 2000) = ⌊(ft_seconds (3 / 2000) - ⌊ft_seconds (3 / 2000)⌋) * 1000⌋ :=
  (format_time_milliseconds_floor (3 / 2000) (by norm_num)).1

/-- `len(text.split())` in `estimate_end_time` (line 74): Python's
argument-free `split` breaks the string at whitespace runs and drops empty
pieces, so the word count is the number of maximal non-whitespace runs.
The boolean accumulator records whether the previous character was inside
a word. -/
def word_count_aux : List Char → Bool → ℕ
  | [], _ => 0
  | c :: rest, inWord =>
    if c.isWhitespace then word_count_aux rest false
    else (if inWord then 0 else 1) + word_count_aux rest true

/-- `word_count = len(text.split())` of `estimate_end_time`. -/
def word_count (text : String) : ℕ := word_count_aux text.data false

/-- Embedding of `estimate_end_time(start_time, text, words_per_minute=100)`
(src/subtitle_maker.py lines 72-79). -/
def estimate_end_time (start_time : ℚ) (text : String) (words_per_minute : ℚ) : ℚ :=
  if word_count text = 0 then
    start_time + 1
  else
    start_time + max (1 / 2) ((word_count text : ℚ) / words_per_minute * 60)

example : word_count "  hello   world " = 2 := by decide

/-- C8: with the default `words_per_minute = 100`, the estimator returns
exactly `start + 1` on zero-word text and
`start + max(0.5, word_count / 100 * 60)` otherwise, and in every case the
returned end is strictly greater than `start`. -/
theorem estimate_end_time_spec (start_time : ℚ) (text : String) :
    (word_count text = 0 → estimate_end_time start_time text 100 = start_time + 1) ∧
      (word_count text ≠ 0 →
        estimate_end_time start_time text 100 =
          start_time + max (1 / 2) ((word_count text : ℚ) / 100 * 60)) ∧
      start_time < estimate_end_time start_time text 100 := by
  refine ⟨fun h => by simp [estimate_end_time, h],
    fun h => by simp [estimate_end_time, h], ?_⟩
  unfold estimate_end_time
  split_ifs with h
  · linarith
  · have hmax : (1 : ℚ) / 2 ≤ max (1 / 2) ((word_count text : ℚ) / 100 * 60) :=
      le_max_left _ _
    linarith

/-- Witness for C8: both branches evaluated concretely — two-word text gives
`start + 1.2`, empty text gives `start + 1`. -/
theorem estimate_end_time_spec_witness :
    estimate_end_time 3 "hello world" 100 = 3 + max (1 / 2) ((2 : ℚ) / 100 * 60) ∧
      estimate_end_time 3 "" 100 = 3 + 1 :=
  ⟨by
      have h := (estimate_end_time_spec 3 "hello world").2.1 (by decide)
      simpa using h,
    (estimate_end_time_spec 3 "").1 (by decide)⟩

/-- A segment as consumed by `dict_to_srt`: the transcription engine may
omit the `end` key (`subtitle.get("end")`), so `end` is optional here. -/
structure RawSegment where
  start : ℚ
  «end» : Option ℚ
  text : String
deriving DecidableEq

/-- The validity filter of `dict_to_srt` (line 47):
`s.get('start') is not None and s.get('end') is not None and s['start'] >= 0
and s['end'] > s['start']`. -/
def valid_subtitle (s : RawSegment) : Bool :=
  match s.«end» with
  | some e => decide (0 ≤ s.start) && decide (s.start < e)
  | none => false

/-- The `end_time` computation inside the loop of `dict_to_srt`
(lines 52-58): use the pre-calculated end if present and after the start,
otherwise estimate, forcing `start + 1` if the estimate is still not after
the start. -/
def srt_entry_end (subtitle : RawSegment) : ℚ :=
  match subtitle.«end» with
  | none =>
    let et := estimate_end_time subtitle.start subtitle.text 100
    if et ≤ subtitle.start then subtitle.start + 1 else et
  | some e =>
    if e ≤ subtitle.start then
      let et := estimate_end_time subtitle.start subtitle.text 100
      if et ≤ subtitle.start then subtitle.start + 1 else et
    else e

/-- Embedding of `dict_to_srt(subtitles)` (src/subtitle_maker.py lines
43-61): filter to the valid subtitles, then accumulate
`f"{index + 1}\n{format_time(start)} --> {format_time(end)}\n{text.strip()}\n\n"`
over the enumerated list. -/
def dict_to_srt (subtitles : List RawSegment) : String :=
  ((subtitles.filter valid_subtitle).enum).foldl
    (fun srt_string p =>
      srt_string ++
        (Nat.repr (p.1 + 1) ++ "\n" ++ format_time p.2.start ++ " --> " ++
          format_time (srt_entry_end p.2) ++ "\n" ++ p.2.text.trim ++ "\n\n"))
    ""

/-- The serialised block of spec §4.4/§6, written from the spec's words:
three lines — the 1-based index, the formatted start and end separated by
an arrow, and the trimmed text — followed by one blank line. -/
def sub_block_spec (index : ℕ) (s : RawSegment) : String :=
  Nat.repr index ++ "\n" ++ format_time s.start ++ " --> " ++
    format_time ((s.«end»).getD 0) ++ "\n" ++ s.text.trim ++ "\n\n"

/-- The filter of spec §4.4, written from the spec's words: drop any
segment where `start < 0`, `end` is absent, or `end ≤ start`. -/
def keep_spec (s : RawSegment) : Bool :=
  !(decide (s.start < 0) ||
    (match s.«end» with
     | none => true
     | some e => decide (e ≤ s.start)))

/-- The encoder of spec §4.4/§6, written from the spec's words: the
surviving segments, in original relative order, serialised with 1-based
contiguous indices; each entry contributes its own trailing blank line, so
the file ends with one. -/
def encode_spec (subtitles : List RawSegment) : String :=
  ((subtitles.filter keep_spec).enum).foldr
    (fun p acc => sub_block_spec (p.1 + 1) p.2 ++ acc) ""

theorem valid_subtitle_eq_keep_spec (s : RawSegment) :
    valid_subtitle s = keep_spec s := by
  cases hE : s.«end» with
  | none => simp [valid_subtitle, keep_spec, hE]
  | some e =>
    simp only [valid_subtitle, keep_spec, hE]
    by_cases h1 : s.start < 0
    · simp [h1, not_le.mpr h1]
    · by_cases h2 : e ≤ s.start
      · simp [h1, h2, not_lt.mpr h2]
      · simp [h1, h2, not_lt.mp h1, not_le.mp h2]

theorem foldl_append_eq_foldr_append {α : Type} (l : List α) (f : α → String) :
    ∀ init : String,
      l.foldl (fun acc x => acc ++ f x) init = init ++ l.foldr (fun x acc => f x ++ acc) "" := by
  induction l with
  | nil => intro init; simp [String.append_empty]
  | cons x xs ih =>
    intro init
    simp only [List.foldl_cons, List.foldr_cons, ih (init ++ f x), String.append_assoc]

theorem foldr_append_congr {α : Type} (l : List α) (f g : α → String)
    (h : ∀ x ∈ l, f x = g x) :
    l.foldr (fun x acc => f x ++ acc) "" = l.foldr (fun x acc => g x ++ acc) "" := by
  induction l with
  | nil => rfl
  | cons x xs ih =>
    simp only [List.foldr_cons]
    rw [h x (List.mem_cons_self _ _),
      ih fun y hy => h y (List.mem_cons_of_mem _ hy)]

/-- C5: on every input whose segments all carry an `end` value,
`dict_to_srt` is exactly the spec's encoder: it drops precisely the
segments with `start < 0` or `end ≤ start`, numbers the survivors
contiguously from 1 in their original order, and emits per survivor the
three-line block (index, `start --> end` via the time formatter, trimmed
text) followed by a blank line — the last block included, so the file ends
with a blank line. -/
theorem dict_to_srt_eq_encode_spec (subtitles : List RawSegment)
    (h : ∀ s ∈ subtitles, (s.«end»).isSome = true) :
    dict_to_srt subtitles = encode_spec subtitles := by
  unfold dict_to_srt encode_spec
  have hfilter : subtitles.filter valid_subtitle = subtitles.filter keep_spec := by
    simp only [funext valid_subtitle_eq_keep_spec]
  rw [hfilter, foldl_append_eq_foldr_append, String.empty_append]
  apply foldr_append_congr
  intro p hp
  have hmem : p.2 ∈ subtitles.filter keep_spec := List.snd_mem_of_mem_enum hp
  have hkeep : keep_spec p.2 = true := List.of_mem_filter hmem
  have hvalid : valid_subtitle p.2 = true := by
    rw [valid_subtitle_eq_keep_spec]; exact hkeep
  cases hE : p.2.«end» with
  | none => simp [valid_subtitle, hE] at hvalid
  | some e =>
    simp only [valid_subtitle, hE, Bool.and_eq_true, decide_eq_true_eq] at hvalid
    have hend : srt_entry_end p.2 = e := by
      simp [srt_entry_end, hE, not_le.mpr hvalid.2]
    simp [sub_block_spec, hend, hE, String.append_assoc]

/-- Witness for C5: the encoder equality evaluated on a concrete list in
which one segment is dropped (`end ≤ start`) and two survive. -/
theorem dict_to_srt_eq_encode_spec_witness :
    dict_to_srt [⟨0, some 2, " a "⟩, ⟨5, some 4, "b"⟩, ⟨6, some 9, "c"⟩] =
      encode_spec [⟨0, some 2, " a "⟩, ⟨5, some 4, "b"⟩, ⟨6, some 9, "c"⟩] :=
  dict_to_srt_eq_encode_spec _ (by
    intro s hs
    simp only [List.mem_cons, List.not_mem_nil, or_false] at hs
    rcases hs with rfl | rfl | rfl <;> rfl)

/-- C4-counterexample: a segment with `start = 0`, absent `end` and
nonempty text is discarded by `dict_to_srt` — the output is empty — rather
than being kept with an estimated end as the claim states. -/
theorem dict_to_srt_absent_end_dropped :
    dict_to_srt [⟨0, none, "hello"⟩] = "" := by
  rfl

/-- C4 (amended): a segment whose `end` is absent, or whose `end` is
`≤ start`, never reaches the estimation step: the validity filter at the
top of `dict_to_srt` removes it before the loop runs, so inserting such a
segment anywhere in any input list — among valid segments or not — leaves
the encoded output identical to the output without it: the segment is
discarded, appears nowhere, and does not shift the numbering of the
survivors (the in-loop `EndTimeEstimator` branch is dead code). -/
theorem dict_to_srt_invalid_dropped (pre post : List RawSegment) (s : RawSegment)
    (h : s.«end» = none ∨ ∃ e, s.«end» = some e ∧ e ≤ s.start) :
    dict_to_srt (pre ++ s :: post) = dict_to_srt (pre ++ post) := by
  have hval : valid_subtitle s = false := by
    rcases h with hE | ⟨e, hE, hle⟩
    · simp [valid_subtitle, hE]
    · simp [valid_subtitle, hE, not_lt.mpr hle]
  simp only [dict_to_srt, List.filter_append, List.filter_cons, hval]
  simp

/-- Witness for C4 (amended): an absent-end segment inserted between two
valid segments is discarded — the output equals the output without it. -/
theorem dict_to_srt_invalid_dropped_witness :
    dict_to_srt ([⟨0, some 2, "a"⟩] ++ ⟨3, none, "x"⟩ :: [⟨6, some 9, "c"⟩]) =
      dict_to_srt ([⟨0, some 2, "a"⟩] ++ [⟨6, some 9, "c"⟩]) :=
  dict_to_srt_invalid_dropped [⟨0, some 2, "a"⟩] [⟨6, some 9, "c"⟩]
    ⟨3, none, "x"⟩ (Or.inl rfl)

/-- Symbolic audio streams: the extracted track, a time slice of a stream,
and concatenation, mirroring the pydub expressions
`audio_segment[middle_start_ms:middle_end_ms]` and
`middle_chunk + audio_segment` in `process_video`. -/
inductive AudioExpr where
  | original : AudioExpr
  | slice : ℚ → ℚ → AudioExpr → AudioExpr
  | concat : AudioExpr → AudioExpr → AudioExpr
deriving DecidableEq

/-- The duplication decision of spec §4.1: performed flag, window bounds in
seconds, and the prepended duplicate duration. -/
structure DuplicationPlan where
  performed : Bool
  window_start : ℚ
  window_end : ℚ
  duplicate_duration : ℚ
deriving DecidableEq

/-- Embedding of the duplication decision and window computation of
`process_video` (src/subtitle_maker.py lines 151-182).  The code works in
milliseconds; the resulting plan converts back to seconds, with
`duplicate_duration = len(middle_chunk) / 1000
= (middle_end_ms - middle_start_ms) / 1000`. -/
def plan_duplication (audio_duration : ℚ) : DuplicationPlan :=
  if 0 < audio_duration ∧ audio_duration < 30 then
    let audio_duration_ms := audio_duration * 1000
    let actual_middle_duration_ms := min 10000 audio_duration_ms
    let middle_start_ms := max 0 (audio_duration_ms / 2 - actual_middle_duration_ms / 2)
    let middle_end_ms := min (middle_start_ms + actual_middle_duration_ms) audio_duration_ms
    let middle_start_ms := max 0 (middle_end_ms - actual_middle_duration_ms)
    { performed := true,
      window_start := middle_start_ms / 1000,
      window_end := middle_end_ms / 1000,
      duplicate_duration := (middle_end_ms - middle_start_ms) / 1000 }
  else
    { performed := false, window_start := 0, window_end := 0, duplicate_duration := 0 }

/-- The audio stream handed to the transcriber (`transcribe_target_file`,
lines 149-176): the middle chunk prepended to the original when duplication
is performed, the original stream untouched otherwise. -/
def transcribe_audio (audio_duration : ℚ) : AudioExpr :=
  let plan := plan_duplication audio_duration
  if plan.performed = true then
    AudioExpr.concat
      (AudioExpr.slice plan.window_start plan.window_end AudioExpr.original)
      AudioExpr.original
  else
    AudioExpr.original

/-- Spec §4.1 window length: `min(10.0, duration)`. -/
def window_len_spec (d : ℚ) : ℚ := min 10 d

/-- Spec §4.1 centred window start: `max(0, duration/2 - window_len/2)`. -/
def window_start0_spec (d : ℚ) : ℚ := max 0 (d / 2 - window_len_spec d / 2)

/-- Spec §4.1 window end: `min(duration, window_start + window_len)`. -/
def window_end_spec (d : ℚ) : ℚ := min d (window_start0_spec d + window_len_spec d)

/-- Spec §4.1 re-clamped window start: `max(0, window_end - window_len)`. -/
def window_start_spec (d : ℚ) : ℚ := max 0 (window_end_spec d - window_len_spec d)

theorem plan_eq_low (d : ℚ) (h0 : 0 < d) (hle : d ≤ 10) (h30 : d < 30) :
    plan_duplication d = ⟨true, 0, d, d⟩ := by
  have h1 : min 10000 (d * 1000) = d * 1000 := min_eq_right (by linarith)
  simp only [plan_duplication, if_pos (And.intro h0 h30), h1, zero_add, min_self,
    sub_self, max_self, sub_zero, DuplicationPlan.mk.injEq]
  refine ⟨trivial, by norm_num, by ring, by ring⟩

theorem plan_eq_high (d : ℚ) (hge : 10 ≤ d) (h30 : d < 30) :
    plan_duplication d = ⟨true, d / 2 - 5, d / 2 + 5, 10⟩ := by
  have h0 : 0 < d := by linarith
  have h1 : min 10000 (d * 1000) = 10000 := min_eq_left (by linarith)
  have h2 : max 0 (d * 1000 / 2 - 10000 / 2) = d * 1000 / 2 - 5000 := by
    rw [max_eq_right (by linarith)]
    ring
  have h3 : min (d * 1000 / 2 - 5000 + 10000) (d * 1000) = d * 1000 / 2 + 5000 := by
    rw [min_eq_left (by linarith)]
    ring
  have h4 : max 0 (d * 1000 / 2 + 5000 - 10000) = d * 1000 / 2 - 5000 := by
    rw [max_eq_right (by linarith)]
    ring
  simp only [plan_duplication, if_pos (And.intro h0 h30), h1, h2, h3, h4,
    DuplicationPlan.mk.injEq]
  refine ⟨trivial, by ring, by ring, by ring⟩

theorem window_spec_low (d : ℚ) (h0 : 0 < d) (hle : d ≤ 10) :
    window_start_spec d = 0 ∧ window_end_spec d = d := by
  have h1 : window_len_spec d = d := min_eq_right hle
  have h2 : window_start0_spec d = 0 := by
    rw [window_start0_spec, h1, sub_self, max_self]
  have h3 : window_end_spec d = d := by
    rw [window_end_spec, h2, h1, zero_add, min_self]
  exact ⟨by rw [window_start_spec, h3, h1, sub_self, max_self], h3⟩

theorem window_spec_high (d : ℚ) (hge : 10 ≤ d) :
    window_start_spec d = d / 2 - 5 ∧ window_end_spec d = d / 2 + 5 := by
  have h1 : window_len_spec d = 10 := min_eq_left hge
  have h2 : window_start0_spec d = d / 2 - 5 := by
    rw [window_start0_spec, h1]
    rw [max_eq_right (by linarith)]
    ring
  have h3 : window_end_spec d = d / 2 + 5 := by
    rw [window_end_spec, h2, h1]
    rw [min_eq_right (by linarith)]
    ring
  refine ⟨?_, h3⟩
  rw [window_start_spec, h3, h1]
  rw [max_eq_right (by linarith)]
  ring

/-- C2: duplication is performed exactly when `0 < duration < 30`; when
performed, the window agrees with the spec formulas — length
`min(10, duration)` centred at the midpoint, end clamped to the duration,
start re-clamped — and `duplicate_duration = window_end - window_start`;
for `duration = 20` the window is `[5, 15]` with duplicate duration 10;
and for `duration ≥ 30` or `duration = 0` no duplication happens, the
duplicate duration is 0 and the transcriber receives the original stream
unchanged. -/
theorem plan_duplication_spec (d : ℚ) :
    ((plan_duplication d).performed = true ↔ 0 < d ∧ d < 30) ∧
      (0 < d → d < 30 →
        (plan_duplication d).window_start = window_start_spec d ∧
          (plan_duplication d).window_end = window_end_spec d ∧
          (plan_duplication d).duplicate_duration =
            window_end_spec d - window_start_spec d) ∧
      plan_duplication 20 = ⟨true, 5, 15, 10⟩ ∧
      (30 ≤ d ∨ d = 0 →
        (plan_duplication d).duplicate_duration = 0 ∧
          transcribe_audio d = AudioExpr.original) := by
  refine ⟨?_, ?_, ?_, ?_⟩
  · unfold plan_duplication
    split_ifs with h
    · simpa using h
    · simpa using h
  · intro h0 h30
    rcases le_total d 10 with hle | hge
    · rw [plan_eq_low d h0 hle h30]
      obtain ⟨hws, hwe⟩ := window_spec_low d h0 hle
      exact ⟨hws.symm, hwe.symm, by rw [hws, hwe, sub_zero]⟩
    · rw [plan_eq_high d hge h30]
      obtain ⟨hws, hwe⟩ := window_spec_high d hge
      refine ⟨hws.symm, hwe.symm, ?_⟩
      rw [hws, hwe]
      ring
  · rw [plan_eq_high 20 (by norm_num) (by norm_num)]
    norm_num
  · intro h
    have hcond : ¬(0 < d ∧ d < 30) := by
      rcases h with h | h
      · rintro ⟨-, h2⟩
        linarith
      · rintro ⟨h1, -⟩
        rw [h] at h1
        exact lt_irrefl 0 h1
    simp [plan_duplication, transcribe_audio, hcond]

/-- Witness for C2: the window formulas at `duration = 20` and the
no-duplication branch at `duration = 30`. -/
theorem plan_duplication_spec_witness :
    (plan_duplication 20).window_start = window_start_spec 20 ∧
      (plan_duplication 30).duplicate_duration = 0 ∧
      transcribe_audio 30 = AudioExpr.original :=
  ⟨((plan_duplication_spec 20).2.1 (by norm_num) (by norm_num)).1,
    (plan_duplication_spec 30).2.2.2 (Or.inl (by norm_num))⟩

/-- Per-file processing with the orchestrator's blanket handler
(src/subtitle_maker.py lines 215-219): the whole body of `process_video` —
decoding, transcription, realignment, encoding, writing, any of which may
raise — is wrapped in `try/except Exception`, so the caller always gets a
normal return; a caught error is only reported.  `none` is success,
`some e` a caught and logged error. -/
def process_video_guarded {F E : Type} (pipeline : F → Except E Unit) (f : F) :
    Option E :=
  match pipeline f with
  | Except.ok _ => none
  | Except.error e => some e

/-- The batch loop of `__main__` (lines 307-311): each selected file is
handed to `process_video` in order; the guarded boundary never throws, so
the loop always reaches every file. -/
def main_loop {F E : Type} (pipeline : F → Except E Unit) (files : List F) :
    List (Option E) :=
  files.map (process_video_guarded pipeline)

/-- The run (lines 274-311): the model is loaded once before the loop; a
load failure aborts the whole run (`sys.exit(1)`), any other error stays
inside its file's boundary. -/
def main_run {F E M : Type} (load_model : Except E M)
    (pipeline : M → F → Except E Unit) (files : List F) :
    Except E (List (Option E)) :=
  match load_model with
  | Except.error e => Except.error e
  | Except.ok m => Except.ok (main_loop (pipeline m) files)

/-- C9: for every batch, an error raised while processing one file `f` is
absorbed by that file's guarded boundary: the run still produces an
outcome for every file of `pre` and of `post` (each file's outcome depends
only on its own processing), and the run as a whole fails only when the
model load fails. -/
theorem per_file_failure_isolation {F E M : Type} (load_model : Except E M)
    (pipeline : M → F → Except E Unit) (pre post : List F) (f : F) :
    (∀ m, load_model = Except.ok m →
        main_run load_model pipeline (pre ++ f :: post) =
          Except.ok (main_loop (pipeline m) pre ++
            process_video_guarded (pipeline m) f :: main_loop (pipeline m) post)) ∧
      ∀ e, load_model = Except.error e →
        main_run load_model pipeline (pre ++ f :: post) = Except.error e := by
  constructor
  · intro m hm
    rw [hm]
    simp [main_run, main_loop]
  · intro e he
    rw [he]
    rfl

/-- Witness for C9: a three-file batch in which the middle file raises —
the other two files are still processed and the run succeeds. -/
theorem per_file_failure_isolation_witness :
    main_run (Except.ok ())
        (fun _ (n : ℕ) => if n = 1 then Except.error 7 else Except.ok ())
        ([0] ++ 1 :: [2]) =
      Except.ok [none, some 7, none] := by
  rw [(per_file_failure_isolation (Except.ok ())
      (fun _ (n : ℕ) => if n = 1 then Except.error 7 else Except.ok ())
      [0] [2] 1).1 () rfl]
  rfl
